import Mathlib

/-!
Shallow embedding of the block-assignment, sunlight-propagation and
chunked-buffer-cache core of ObjToSchematic (`src/block_mesh.ts`),
together with theorems checking the natural-language specification
against it.
-/

namespace ObjToSchematic

/-- Integer 3-vector, mirroring `Vector3` (`src/vector.ts`; only integer
grid positions reach this core). -/
structure Vector3 where
  x : Int
  y : Int
  z : Int
deriving DecidableEq, Repr

/-- `Vector3.add`: componentwise addition, as in `a.add(b)`. -/
def Vector3.add (a b : Vector3) : Vector3 :=
  ⟨a.x + b.x, a.y + b.y, a.z + b.z⟩

/-- Voxel colour is opaque to this core (passed through to the assigner
unchanged); we model it as a natural number. -/
abbrev Colour := Nat

/-- A voxel: integer position plus colour (`Voxel` of `voxel_mesh.ts`). -/
structure Voxel where
  position : Vector3
  colour : Colour
deriving DecidableEq, Repr

/-- A block descriptor; opaque to this core beyond its `name`
(`BlockInfo` of `block_atlas.ts`). -/
structure BlockInfo where
  name : String
deriving DecidableEq, Repr

/-- Axis-aligned bounds of the voxel volume, `min`/`max` inclusive. -/
structure Bounds where
  min : Vector3
  max : Vector3
deriving DecidableEq, Repr

/-- External voxel source (`VoxelMesh`): an ordered voxel list
(`getVoxels`), an occupancy query (`isVoxelAt`) and bounds
(`getBounds`). The collaborator is external to this core, so occupancy
and bounds are independent fields of the interface. -/
structure VoxelMesh where
  voxels : List Voxel
  isVoxelAt : Vector3 → Bool
  getBounds : Bounds

/-- `ColourSpace` (`src/util.ts`): the colour space the assigner works in. -/
inductive ColourSpace where
  | RGB
  | LAB
deriving DecidableEq, Repr

/-- `FallableBehaviour`: the gravity-substitution mode. -/
inductive FallableBehaviour where
  | replaceFalling
  | replaceFallable
  | placeString
  | doNothing
deriving DecidableEq, Repr

/-- A classification collection of candidate blocks handed to the
assigner. -/
structure BlockCollection where
  blocks : List BlockInfo
deriving DecidableEq, Repr

/-- The resolved atlas/palette pair (`AtlasPalette` of
`block_assigner.ts`): the pool of blocks collections are drawn from. -/
structure AtlasPalette where
  blocks : List BlockInfo
deriving DecidableEq, Repr

/-- Modelled from the spec: `AtlasPalette.createBlockCollection`
(`src/block_assigner.ts`, not in the corpus) builds, from the resolved
atlas/palette, the classification collection of available blocks
excluding every block whose name is in the given exclusion list
("one containing all blocks, one excluding every name in the
fallable-name set"). -/
def AtlasPalette.createBlockCollection (ap : AtlasPalette) (exclude : List String) : BlockCollection :=
  ⟨ap.blocks.filter (fun b => decide (b.name ∉ exclude))⟩

/-- The pluggable assigner strategy: `assignBlock(atlasPalette, colour,
position, resolution, colourSpace, blockCollection)`. -/
abbrev Assigner :=
  AtlasPalette → Colour → Vector3 → Nat → ColourSpace → BlockCollection → BlockInfo

/-- One assigned block: pairs a voxel with its block info (`Block`). -/
structure Block where
  voxel : Voxel
  blockInfo : BlockInfo
deriving DecidableEq, Repr

/-- Everything `_assignBlocks` reads: the voxel mesh, the resolved
atlas/palette, the chosen assigner, the fallable-name configuration and
the parameters (`AssignParams.Input`). Atlas/palette resolution failure
aborts before this point, so the context carries resolved values. -/
structure AssignCtx where
  voxelMesh : VoxelMesh
  atlasPalette : AtlasPalette
  assigner : Assigner
  fallableBlocks : List String
  resolution : Nat
  colourSpace : ColourSpace
  fallable : FallableBehaviour

/-- The collection built from the empty exclusion list
(`atlasPalette.createBlockCollection([])`). -/
def AssignCtx.allBlockCollection (ctx : AssignCtx) : BlockCollection :=
  ctx.atlasPalette.createBlockCollection []

/-- The collection excluding the fallable names
(`atlasPalette.createBlockCollection(this._fallableBlocks)`). -/
def AssignCtx.nonFallableBlockCollection (ctx : AssignCtx) : BlockCollection :=
  ctx.atlasPalette.createBlockCollection ctx.fallableBlocks

/-- The candidate block for a voxel: the assigner invoked with the
all-blocks collection and the configured colour space. -/
def AssignCtx.candidateBlock (ctx : AssignCtx) (voxel : Voxel) : BlockInfo :=
  ctx.assigner ctx.atlasPalette voxel.colour voxel.position ctx.resolution
    ctx.colourSpace ctx.allBlockCollection

/-- `isFallable`: the candidate's name is in the fallable-name list. -/
def AssignCtx.isFallable (ctx : AssignCtx) (voxel : Voxel) : Bool :=
  ctx.fallableBlocks.contains (ctx.candidateBlock voxel).name

/-- `isSupported`: the source reports a voxel directly below
(`isVoxelAt(position + (0, -1, 0))`). -/
def AssignCtx.isSupported (ctx : AssignCtx) (voxel : Voxel) : Bool :=
  ctx.voxelMesh.isVoxelAt (Vector3.add voxel.position ⟨0, -1, 0⟩)

/-- The `shouldReplace` condition of `_assignBlocks`. -/
def shouldReplace (mode : FallableBehaviour) (isFallable isSupported : Bool) : Bool :=
  (mode = FallableBehaviour.replaceFallable && isFallable) ||
    (mode = FallableBehaviour.replaceFalling && isFallable && !isSupported)

/-- The replacement block: the assigner re-invoked with the non-fallable
collection and `ColourSpace.RGB` (the literal in the source). -/
def AssignCtx.replacedBlock (ctx : AssignCtx) (voxel : Voxel) : BlockInfo :=
  ctx.assigner ctx.atlasPalette voxel.colour voxel.position ctx.resolution
    ColourSpace.RGB ctx.nonFallableBlockCollection

/-- The block finally pushed for a voxel: the candidate, or the
replacement when `shouldReplace` holds. -/
def AssignCtx.chooseBlock (ctx : AssignCtx) (voxel : Voxel) : BlockInfo :=
  if shouldReplace ctx.fallable (ctx.isFallable voxel) (ctx.isSupported voxel) then
    ctx.replacedBlock voxel
  else
    ctx.candidateBlock voxel

/-- The mutable state of the `_assignBlocks` loop: `this._blocks`,
`this._blocksUsed` and the local `countFalling`. -/
structure AssignState where
  blocks : List Block
  blocksUsed : List String
  countFalling : Nat
deriving Repr

/-- One iteration of the `_assignBlocks` loop body for one voxel. -/
def assignStep (ctx : AssignCtx) (s : AssignState) (voxel : Voxel) : AssignState :=
  let isFallable := ctx.isFallable voxel
  let isSupported := ctx.isSupported voxel
  let countFalling :=
    if isFallable && !isSupported then s.countFalling + 1 else s.countFalling
  let block := ctx.chooseBlock voxel
  { blocks := s.blocks ++ [⟨voxel, block⟩]
    blocksUsed :=
      if s.blocksUsed.contains block.name then s.blocksUsed
      else s.blocksUsed ++ [block.name]
    countFalling := countFalling }

/-- The warning text emitted under `do-nothing` when blocks would fall
(`toLocaleString` rendered as decimal). -/
def fallingWarning (countFalling : Nat) : String :=
  s!"{countFalling} blocks will fall under gravity when this structure is placed"

/-- The observable outcome of `_assignBlocks`: the blocks list, the
used-name list, the falling counter and the warnings sent to the status
sink. -/
structure AssignResult where
  blocks : List Block
  blocksUsed : List String
  countFalling : Nat
  warnings : List String
deriving Repr

/-- `_assignBlocks`: fold the loop body over the voxels in source order,
then emit the single `do-nothing` warning when the counter is nonzero. -/
def assignBlocks (ctx : AssignCtx) : AssignResult :=
  let final := ctx.voxelMesh.voxels.foldl (assignStep ctx) ⟨[], [], 0⟩
  { blocks := final.blocks
    blocksUsed := final.blocksUsed
    countFalling := final.countFalling
    warnings :=
      if ctx.fallable = FallableBehaviour.doNothing && final.countFalling > 0 then
        [fallingWarning final.countFalling]
      else
        [] }

/-! ## Lighting propagator (`_calculateLighting`)

The source keys the lighting map by `Vector3.stringify`, an injective
rendering of the integer coordinate; we key by the coordinate itself.
The map is an insertion-ordered association list, mirroring the
`Map<string, number>` (`set` replaces an existing key in place, or
appends a fresh one). -/

/-- The lighting store: association list from coordinate to light level. -/
abbrev Lighting := List (Vector3 × Nat)

/-- `Map.get`: the value stored at `p`, or `none` when `p` is absent. -/
def lightingGet (l : Lighting) (p : Vector3) : Option Nat :=
  match l with
  | [] => none
  | (q, v) :: rest => if q = p then some v else lightingGet rest p

/-- `Map.set`: replace the first binding of `p`, or append a fresh one. -/
def lightingSet (l : Lighting) (p : Vector3) (v : Nat) : Lighting :=
  match l with
  | [] => [(p, v)]
  | (q, w) :: rest =>
    if q = p then (q, v) :: rest else (q, w) :: lightingSet rest p v

/-- The inclusive integer range `[lo, hi]`, in increasing order, as
iterated by the source's `for` loops. -/
def rangeInt (lo hi : Int) : List Int :=
  (List.range (hi + 1 - lo).toNat).map (fun i : Nat => lo + (i : Int))

/-- Whether `p` lies in the volume grown by one cell on every axis from
`b` — the set of coordinates the initialization loops visit. -/
def inExpandedBounds (b : Bounds) (p : Vector3) : Bool :=
  b.min.x - 1 ≤ p.x && p.x ≤ b.max.x + 1 &&
    (b.min.y - 1 ≤ p.y && p.y ≤ b.max.y + 1) &&
    (b.min.z - 1 ≤ p.z && p.z ≤ b.max.z + 1)

/-- The initialization triple loop: every coordinate of the expanded
volume bound to light level 0, in x-outer, y-middle, z-inner order. -/
def initLighting (b : Bounds) : Lighting :=
  (rangeInt (b.min.x - 1) (b.max.x + 1)).flatMap (fun x =>
    (rangeInt (b.min.y - 1) (b.max.y + 1)).flatMap (fun y =>
      (rangeInt (b.min.z - 1) (b.max.z + 1)).map (fun z =>
        ((⟨x, y, z⟩ : Vector3), 0))))

/-- The (x, z) columns of the expanded volume, in the seeding loops'
x-outer, z-inner order. -/
def seedColumns (b : Bounds) : List (Int × Int) :=
  (rangeInt (b.min.x - 1) (b.max.x + 1)).flatMap (fun x =>
    (rangeInt (b.min.z - 1) (b.max.z + 1)).map (fun z => (x, z)))

/-- The initial light emitters: one entry per (x, z) column of the
expanded volume, at `y = bounds.max.y + 1`, with value 15, in push
order. -/
def seedActions (b : Bounds) : List (Vector3 × Nat) :=
  (rangeInt (b.min.x - 1) (b.max.x + 1)).flatMap (fun x =>
    (rangeInt (b.min.z - 1) (b.max.z + 1)).map (fun z =>
      ((⟨x, b.max.y + 1, z⟩ : Vector3), 15)))

/-- The six worklist entries pushed after a successful update, head
first: the source pushes up, +X, +Z, −X, −Z, down in that order and pops
from the end of the array, so the head of this list (down) is popped
first. Values are `newLightValue - 1` except down, which keeps 15 when
`newLightValue` is 15. (`Nat` subtraction clamps `0 - 1` to 0, but a
0-valued entry can never win the `newLightValue > current` comparison,
so the clamp is unobservable.) -/
def pushSuccessors (pos : Vector3) (newLightValue : Nat) : List (Vector3 × Nat) :=
  [ (Vector3.add ⟨0, -1, 0⟩ pos, if newLightValue = 15 then 15 else newLightValue - 1),
    (Vector3.add ⟨0, 0, -1⟩ pos, newLightValue - 1),
    (Vector3.add ⟨-1, 0, 0⟩ pos, newLightValue - 1),
    (Vector3.add ⟨0, 0, 1⟩ pos, newLightValue - 1),
    (Vector3.add ⟨1, 0, 0⟩ pos, newLightValue - 1),
    (Vector3.add ⟨0, 1, 0⟩ pos, newLightValue - 1) ]

/-- The `while (actions.length > 0)` relaxation loop. The worklist is the
source's array-stack with the top at the head. `fuel` bounds the number
of iterations; the loop's own termination argument (light levels only
grow and are bounded) makes any sufficiently large fuel reach the empty
worklist, which the theorems about concrete runs check via the returned
leftover worklist. Returns the final store and the leftover worklist. -/
def propagate (mesh : VoxelMesh) : Nat → List (Vector3 × Nat) → Lighting →
    Lighting × List (Vector3 × Nat)
  | 0, actions, lighting => (lighting, actions)
  | _ + 1, [], lighting => (lighting, [])
  | fuel + 1, (pos, newLightValue) :: rest, lighting =>
    match lightingGet lighting pos with
    | none => propagate mesh fuel rest lighting
    | some currentLightValue =>
      if newLightValue > currentLightValue && !mesh.isVoxelAt pos then
        propagate mesh fuel (pushSuccessors pos newLightValue ++ rest)
          (lightingSet lighting pos newLightValue)
      else
        propagate mesh fuel rest lighting

/-- `_calculateLighting`: initialize the expanded volume to 0, seed the
sun plane, and run the relaxation loop. The seeds are pushed in loop
order, so the stack pops them in reverse order — hence the `reverse`. -/
def calculateLighting (mesh : VoxelMesh) (fuel : Nat) : Lighting × List (Vector3 × Nat) :=
  propagate mesh fuel (seedActions mesh.getBounds).reverse (initLighting mesh.getBounds)

/-! ## Chunked buffer cache (`getChunkedBuffer`) -/

/-- The cache state: the sparse `_bufferChunks` array as a map from index
to an optional chunk, plus a log of the indices on which the external
`ChunkedBufferGenerator.fromBlockMesh` collaborator was invoked. -/
structure ChunkCache (Chunk : Type) where
  bufferChunks : Nat → Option Chunk
  calls : List Nat

/-- The empty cache a fresh aggregate starts with. -/
def ChunkCache.empty (Chunk : Type) : ChunkCache Chunk :=
  ⟨fun _ => none, []⟩

/-- `getChunkedBuffer(chunkIndex)`: if the slot is empty, invoke the
generator, store the result and return it; otherwise return the stored
chunk unchanged. -/
def getChunkedBuffer {Chunk : Type} (gen : Nat → Chunk) (s : ChunkCache Chunk)
    (chunkIndex : Nat) : Chunk × ChunkCache Chunk :=
  match s.bufferChunks chunkIndex with
  | none =>
    let c := gen chunkIndex
    (c, ⟨fun i => if i = chunkIndex then some c else s.bufferChunks i,
         s.calls ++ [chunkIndex]⟩)
  | some c => (c, s)

/-- A sequence of `getChunkedBuffer` calls on one aggregate: returns the
chunk handed back for each request and the final cache state. -/
def runChunkRequests {Chunk : Type} (gen : Nat → Chunk) (s : ChunkCache Chunk) :
    List Nat → List Chunk × ChunkCache Chunk
  | [] => ([], s)
  | k :: ks =>
    let step := getChunkedBuffer gen s k
    let restRun := runChunkRequests gen step.2 ks
    (step.1 :: restRun.1, restRun.2)

/-! ## Derived definitions used by the specification statements -/

/-- The used-name insertion step of the loop body, in isolation: append
the name unless it is already present (`includes` / push). -/
def insertUsed (used : List String) (n : String) : List String :=
  if used.contains n then used else used ++ [n]

/-- First-occurrence deduplication, written as a specification: keep the
head, drop every later duplicate of it, recurse. The used-name list is
proved equal to this function of the assigned-name sequence. -/
def firstOccur : List String → List String
  | [] => []
  | n :: rest => n :: firstOccur (rest.filter (fun m => m ≠ n))
termination_by l => l.length
decreasing_by
  simp only [List.length_cons]
  exact Nat.lt_succ_of_le (List.length_filter_le _ _)

/-- Translation of a worklist or lighting store by a fixed offset, used
to transport the origin-based single-voxel computation to an arbitrary
position. -/
def shiftEntries (t : Vector3) (l : List (Vector3 × Nat)) : List (Vector3 × Nat) :=
  l.map (fun e => (t.add e.1, e.2))

/-- The cache invariant: every stored chunk is the generator output for
its index, and the call log holds exactly the filled indices, each once. -/
def CacheInv {Chunk : Type} (gen : Nat → Chunk) (s : ChunkCache Chunk) : Prop :=
  s.calls.Nodup ∧
    (∀ k, s.bufferChunks k = none ∨ s.bufferChunks k = some (gen k)) ∧
    (∀ k, s.bufferChunks k ≠ none ↔ k ∈ s.calls)

/-! ## Concrete fixtures for witnesses and counterexamples -/

/-- A fallable block name fixture. -/
def sandInfo : BlockInfo := ⟨"minecraft:sand"⟩

/-- A non-fallable block name fixture. -/
def stoneInfo : BlockInfo := ⟨"minecraft:stone"⟩

/-- A two-block palette fixture. -/
def fixturePalette : AtlasPalette := ⟨[sandInfo, stoneInfo]⟩

/-- An assigner strategy fixture: pick the first block of the collection
it is given (stone for an empty collection), ignoring colour, position,
resolution and colour space. -/
def headAssigner : Assigner := fun _ _ _ _ _ c => c.blocks.headD stoneInfo

/-- A single voxel at the origin. -/
def oneSandVoxel : Voxel := ⟨⟨0, 0, 0⟩, 7⟩

/-- A source holding exactly the one origin voxel: degenerate bounds,
occupancy true at the origin only. -/
def sandMesh : VoxelMesh :=
  { voxels := [oneSandVoxel]
    isVoxelAt := fun p => p = ⟨0, 0, 0⟩
    getBounds := ⟨⟨0, 0, 0⟩, ⟨0, 0, 0⟩⟩ }

/-- The assignment context fixture over `sandMesh`: sand is fallable, the
candidate for every voxel is sand (head of the full collection). -/
def mkCtx (mode : FallableBehaviour) : AssignCtx :=
  { voxelMesh := sandMesh
    atlasPalette := fixturePalette
    assigner := headAssigner
    fallableBlocks := ["minecraft:sand"]
    resolution := 16
    colourSpace := ColourSpace.LAB
    fallable := mode }

/-- A source where the origin voxel is supported: a second voxel sits
directly below it. -/
def supportedMesh : VoxelMesh :=
  { voxels := [oneSandVoxel, ⟨⟨0, -1, 0⟩, 7⟩]
    isVoxelAt := fun p => p = ⟨0, 0, 0⟩ || p = ⟨0, -1, 0⟩
    getBounds := ⟨⟨0, -1, 0⟩, ⟨0, 0, 0⟩⟩ }

/-- The assignment context over `supportedMesh` in replace-fallable mode:
a supported sand-candidate voxel. -/
def supCtx : AssignCtx :=
  { voxelMesh := supportedMesh
    atlasPalette := fixturePalette
    assigner := headAssigner
    fallableBlocks := ["minecraft:sand"]
    resolution := 16
    colourSpace := ColourSpace.LAB
    fallable := FallableBehaviour.replaceFallable }

/-- A single voxel away from the origin. -/
def farVoxel : Voxel := ⟨⟨5, -2, 3⟩, 3⟩

/-- A single-voxel source away from the origin. -/
def farMesh : VoxelMesh :=
  { voxels := [farVoxel]
    isVoxelAt := fun q => q = ⟨5, -2, 3⟩
    getBounds := ⟨⟨5, -2, 3⟩, ⟨5, -2, 3⟩⟩ }

/-! ## Lemmas: the assignment fold -/

/-- The blocks list of the fold is the seed blocks followed by one block
per voxel, each pairing the voxel with its chosen block. -/
theorem foldl_assignStep_blocks (ctx : AssignCtx) (voxels : List Voxel) (s : AssignState) :
    (voxels.foldl (assignStep ctx) s).blocks =
      s.blocks ++ voxels.map (fun v => ⟨v, ctx.chooseBlock v⟩) := by
  induction voxels generalizing s with
  | nil => simp
  | cons v rest ih => simp [assignStep, ih]

/-- The falling counter counts the fallable-and-unsupported voxels. -/
theorem foldl_assignStep_countFalling (ctx : AssignCtx) (voxels : List Voxel) (s : AssignState) :
    (voxels.foldl (assignStep ctx) s).countFalling =
      s.countFalling + voxels.countP (fun v => ctx.isFallable v && !ctx.isSupported v) := by
  induction voxels generalizing s with
  | nil => simp
  | cons v rest ih =>
    simp only [List.foldl_cons, ih, List.countP_cons]
    by_cases h : (ctx.isFallable v && !ctx.isSupported v) = true
    · simp [assignStep, h]
      omega
    · simp [assignStep, h]

/-- The used-name list of the fold is the insert-fold of the chosen
names. -/
theorem foldl_assignStep_blocksUsed (ctx : AssignCtx) (voxels : List Voxel) (s : AssignState) :
    (voxels.foldl (assignStep ctx) s).blocksUsed =
      (voxels.map (fun v => (ctx.chooseBlock v).name)).foldl insertUsed s.blocksUsed := by
  induction voxels generalizing s with
  | nil => simp
  | cons v rest ih => simp [assignStep, ih, insertUsed]

/-- Membership in `firstOccur` is membership in the input. -/
theorem mem_firstOccur (l : List String) (m : String) : m ∈ firstOccur l ↔ m ∈ l := by
  induction l using firstOccur.induct with
  | case1 => simp [firstOccur]
  | case2 n rest ih =>
    rw [firstOccur]
    simp only [ne_eq, decide_not] at ih
    by_cases hm : m = n
    · simp [hm]
    · simp [hm, ih, List.mem_filter]

/-- `firstOccur` never repeats a name. -/
theorem nodup_firstOccur (l : List String) : (firstOccur l).Nodup := by
  induction l using firstOccur.induct with
  | case1 => simp [firstOccur]
  | case2 n rest ih =>
    rw [firstOccur]
    refine List.nodup_cons.mpr ⟨?_, ih⟩
    rw [mem_firstOccur]
    simp [List.mem_filter]

/-- Absence from an appended singleton splits into freshness and
absence, at the Bool level of `contains`. -/
theorem contains_append_elem (acc : List String) (n m : String) :
    (!(acc ++ [n]).contains m) = (decide (m ≠ n) && !acc.contains m) := by
  by_cases h1 : m = n
  · subst h1
    simp [List.elem_iff]
  · by_cases h2 : m ∈ acc <;> simp [h1, h2, List.elem_iff]

/-- The insert-fold is the accumulator followed by the first-occurrence
deduplication of the names not already present. -/
theorem foldl_insertUsed_eq (l : List String) : ∀ acc : List String,
    l.foldl insertUsed acc = acc ++ firstOccur (l.filter (fun n => !acc.contains n)) := by
  induction l with
  | nil => intro acc; simp [firstOccur]
  | cons n rest ih =>
    intro acc
    by_cases hc : acc.contains n = true
    · have h1 : insertUsed acc n = acc := by unfold insertUsed; rw [if_pos hc]
      have hfc : List.filter (fun m => !acc.contains m) (n :: rest) =
          List.filter (fun m => !acc.contains m) rest := by
        simp [List.filter_cons, List.elem_iff.mp hc]
      simp only [List.foldl_cons, h1, hfc]
      exact ih acc
    · have hc2 : acc.contains n = false := by simp_all
      have h1 : insertUsed acc n = acc ++ [n] := by unfold insertUsed; rw [if_neg hc]
      have hfc : List.filter (fun m => !acc.contains m) (n :: rest) =
          n :: List.filter (fun m => !acc.contains m) rest := by
        simp [List.filter_cons, (show n ∉ acc from fun h => hc (List.elem_iff.mpr h))]
      simp only [List.foldl_cons, h1, hfc]
      rw [ih]
      rw [firstOccur, List.filter_filter]
      have hpt : rest.filter (fun m => !(acc ++ [n]).contains m) =
          rest.filter (fun m => decide (m ≠ n) && !acc.contains m) :=
        List.filter_congr (fun m _ => contains_append_elem acc n m)
      rw [hpt]
      simp

/-- `_assignBlocks` produces one block per voxel, in order, pairing each
voxel with its chosen block. -/
theorem assignBlocks_blocks (ctx : AssignCtx) :
    (assignBlocks ctx).blocks =
      ctx.voxelMesh.voxels.map (fun v => ⟨v, ctx.chooseBlock v⟩) := by
  simp [assignBlocks, foldl_assignStep_blocks]

/-- The falling counter of `_assignBlocks` counts the
fallable-and-unsupported voxels. -/
theorem assignBlocks_countFalling (ctx : AssignCtx) :
    (assignBlocks ctx).countFalling =
      ctx.voxelMesh.voxels.countP (fun v => ctx.isFallable v && !ctx.isSupported v) := by
  simp [assignBlocks, foldl_assignStep_countFalling]

/-- The used-name list of `_assignBlocks` is the first-occurrence
deduplication of the assigned block names. -/
theorem assignBlocks_blocksUsed (ctx : AssignCtx) :
    (assignBlocks ctx).blocksUsed =
      firstOccur ((assignBlocks ctx).blocks.map (fun b => b.blockInfo.name)) := by
  have h1 : (assignBlocks ctx).blocksUsed =
      (ctx.voxelMesh.voxels.map (fun v => (ctx.chooseBlock v).name)).foldl insertUsed [] := by
    simp [assignBlocks, foldl_assignStep_blocksUsed]
  rw [h1, foldl_insertUsed_eq, assignBlocks_blocks]
  simp only [List.nil_append, List.contains_nil, Bool.not_false, List.filter_true,
    List.map_map]
  rfl

/-! ## Lemmas: the lighting relaxation -/

/-- Entries of an updated store come from the old store or are the new
binding. -/
theorem mem_lightingSet (l : Lighting) (p : Vector3) (v : Nat) :
    ∀ q w, (q, w) ∈ lightingSet l p v → (q, w) ∈ l ∨ (q = p ∧ w = v) := by
  induction l with
  | nil =>
    intro q w h
    simp [lightingSet] at h
    exact Or.inr h
  | cons e rest ih =>
    obtain ⟨a, b⟩ := e
    intro q w h
    by_cases hap : a = p
    · simp only [lightingSet, hap, if_pos] at h
      rcases List.mem_cons.mp h with h | h
      · right
        have h1 : q = p ∧ w = v := by
          have h2 := h
          simp [Prod.ext_iff] at h2
          exact h2
        exact h1
      · exact Or.inl (List.mem_cons_of_mem _ h)
    · simp only [lightingSet, if_neg hap] at h
      rcases List.mem_cons.mp h with h | h
      · exact Or.inl (h ▸ List.mem_cons_self _ _)
      · rcases ih q w h with h2 | h2
        · exact Or.inl (List.mem_cons_of_mem _ h2)
        · exact Or.inr h2

/-- Successor entries of an in-range update carry values bounded by 15. -/
theorem pushSuccessors_le (pos : Vector3) (v : Nat) (hv : v ≤ 15) :
    ∀ a ∈ pushSuccessors pos v, a.2 ≤ 15 := by
  intro a ha
  simp only [pushSuccessors, List.mem_cons, List.not_mem_nil, or_false] at ha
  rcases ha with rfl | rfl | rfl | rfl | rfl | rfl <;> simp <;> first
    | omega
    | (split_ifs <;> omega)

/-- The loop invariant: if every stored value is at most 15 and occupied
coordinates store 0, and every pending worklist value is at most 15, the
same holds after running the loop for any number of iterations. -/
theorem propagate_invariant (mesh : VoxelMesh) :
    ∀ (fuel : Nat) (actions : List (Vector3 × Nat)) (lighting : Lighting),
      (∀ e ∈ lighting, e.2 ≤ 15 ∧ (mesh.isVoxelAt e.1 = true → e.2 = 0)) →
      (∀ a ∈ actions, a.2 ≤ 15) →
      ∀ e ∈ (propagate mesh fuel actions lighting).1,
        e.2 ≤ 15 ∧ (mesh.isVoxelAt e.1 = true → e.2 = 0) := by
  intro fuel
  induction fuel with
  | zero =>
    intro actions lighting hl _
    simpa [propagate] using hl
  | succ fuel ih =>
    intro actions lighting hl ha
    match actions with
    | [] => simpa [propagate] using hl
    | (pos, v) :: rest =>
      have hrest : ∀ a ∈ rest, a.2 ≤ 15 :=
        fun a hA => ha a (List.mem_cons_of_mem _ hA)
      have hv : v ≤ 15 := ha (pos, v) (List.mem_cons_self _ _)
      simp only [propagate]
      cases hget : lightingGet lighting pos with
      | none => exact ih rest lighting hl hrest
      | some cur =>
        by_cases hcond : (decide (v > cur) && !mesh.isVoxelAt pos) = true
        · simp only [hcond, if_pos]
          have hocc : mesh.isVoxelAt pos = false := by
            rcases Bool.and_eq_true .. |>.mp hcond with ⟨_, h2⟩
            simpa using h2
          apply ih
          · intro e he
            obtain ⟨q, w⟩ := e
            rcases mem_lightingSet lighting pos v q w he with h | ⟨rfl, rfl⟩
            · exact hl _ h
            · exact ⟨hv, fun hc => absurd hc (by simp [hocc])⟩
          · intro a hA
            rcases List.mem_append.mp hA with h | h
            · exact pushSuccessors_le pos v hv a h
            · exact hrest a h
        · simp only [hcond, if_neg]
          exact ih rest lighting hl hrest

/-- Initialization stores 0 everywhere. -/
theorem mem_initLighting_val (b : Bounds) :
    ∀ e ∈ initLighting b, e.2 = 0 := by
  intro e he
  simp only [initLighting, List.mem_flatMap, List.mem_map] at he
  obtain ⟨x, _, y, _, z, _, rfl⟩ := he
  rfl

/-- The reversed seed worklist carries only the value 15. -/
theorem mem_seedActions_val (b : Bounds) :
    ∀ a ∈ (seedActions b).reverse, a.2 = 15 := by
  intro a ha
  rw [List.mem_reverse] at ha
  simp only [seedActions, List.mem_flatMap, List.mem_map] at ha
  obtain ⟨x, _, z, _, rfl⟩ := ha
  rfl

/-- Membership in the inclusive integer range. -/
theorem mem_rangeInt (lo hi x : Int) : x ∈ rangeInt lo hi ↔ lo ≤ x ∧ x ≤ hi := by
  rw [rangeInt, List.mem_map]
  constructor
  · rintro ⟨i, hi2, rfl⟩
    rw [List.mem_range] at hi2
    omega
  · rintro ⟨h1, h2⟩
    refine ⟨(x - lo).toNat, ?_, ?_⟩
    · rw [List.mem_range]
      omega
    · omega

/-- The inclusive integer range repeats no value. -/
theorem nodup_rangeInt (lo hi : Int) : (rangeInt lo hi).Nodup := by
  refine List.Nodup.map ?_ (List.nodup_range _)
  intro a b h
  have h2 : lo + (a : Int) = lo + (b : Int) := h
  omega

/-- Membership in the seeded column list. -/
theorem mem_seedColumns (b : Bounds) (x z : Int) :
    (x, z) ∈ seedColumns b ↔
      (b.min.x - 1 ≤ x ∧ x ≤ b.max.x + 1 ∧ b.min.z - 1 ≤ z ∧ z ≤ b.max.z + 1) := by
  simp only [seedColumns, List.mem_flatMap, List.mem_map, mem_rangeInt, Prod.mk.injEq]
  constructor
  · rintro ⟨a, ha, c, hc, rfl, rfl⟩
    exact ⟨ha.1, ha.2, hc.1, hc.2⟩
  · rintro ⟨h1, h2, h3, h4⟩
    exact ⟨x, ⟨h1, h2⟩, z, ⟨h3, h4⟩, rfl, rfl⟩

/-- The seeded column list repeats no column. -/
theorem nodup_seedColumns (b : Bounds) : (seedColumns b).Nodup := by
  rw [seedColumns]
  apply List.nodup_flatMap.mpr
  refine ⟨?_, ?_⟩
  · intro x _
    refine List.Nodup.map ?_ (nodup_rangeInt _ _)
    intro a c h
    exact (Prod.mk.injEq .. ▸ h : _ ∧ _).2
  · refine List.Pairwise.imp ?_ (nodup_rangeInt (b.min.x - 1) (b.max.x + 1))
    intro a c hne e he1 he2
    simp only [List.mem_map] at he1 he2
    obtain ⟨z1, _, rfl⟩ := he1
    obtain ⟨z2, _, h2⟩ := he2
    exact hne (congrArg Prod.fst h2.symm)

/-- The seed worklist is exactly one entry per seeded column, each at
the top layer with value 15. -/
theorem seedActions_eq_map (b : Bounds) :
    seedActions b = (seedColumns b).map
      (fun xz => ((⟨xz.1, b.max.y + 1, xz.2⟩ : Vector3), 15)) := by
  simp only [seedActions, seedColumns, List.map_flatMap, List.map_map]
  rfl

/-! ## Lemmas: translation equivariance of the lighting pass -/

/-- Adding a fixed offset on the left is injective. -/
theorem vadd_left_cancel (t a b : Vector3) : (t.add a = t.add b) ↔ a = b := by
  constructor
  · intro h
    obtain ⟨ax, ay, az⟩ := a
    obtain ⟨bx, by2, bz⟩ := b
    simp [Vector3.add, Vector3.mk.injEq] at h ⊢
    omega
  · intro h
    rw [h]

/-- Lookup commutes with translation. -/
theorem lightingGet_shift (t : Vector3) (l : Lighting) (p : Vector3) :
    lightingGet (shiftEntries t l) (t.add p) = lightingGet l p := by
  induction l with
  | nil => rfl
  | cons e rest ih =>
    obtain ⟨q, w⟩ := e
    simp only [shiftEntries, List.map_cons, lightingGet]
    by_cases h : q = p
    · simp [h]
    · have h2 : ¬(t.add q = t.add p) := fun hc => h ((vadd_left_cancel t q p).mp hc)
      simp only [h, h2, if_neg]
      exact ih

/-- Store update commutes with translation. -/
theorem lightingSet_shift (t : Vector3) (l : Lighting) (p : Vector3) (v : Nat) :
    lightingSet (shiftEntries t l) (t.add p) v = shiftEntries t (lightingSet l p v) := by
  induction l with
  | nil => rfl
  | cons e rest ih =>
    obtain ⟨q, w⟩ := e
    simp only [shiftEntries, List.map_cons, lightingSet]
    by_cases h : q = p
    · simp [h]
    · have h2 : ¬(t.add q = t.add p) := fun hc => h ((vadd_left_cancel t q p).mp hc)
      rw [if_neg h2, if_neg h]
      simp only [List.map_cons]
      rw [show lightingSet (List.map (fun e => (t.add e.1, e.2)) rest) (t.add p) v =
        List.map (fun e => (t.add e.1, e.2)) (lightingSet rest p v) from ih]

/-- Successor generation commutes with translation. -/
theorem pushSuccessors_shift (t : Vector3) (p : Vector3) (v : Nat) :
    pushSuccessors (t.add p) v = shiftEntries t (pushSuccessors p v) := by
  simp only [pushSuccessors, shiftEntries, List.map_cons, List.map_nil,
    Vector3.add, Vector3.mk.injEq, Prod.mk.injEq, List.cons.injEq, and_true]
  refine ⟨⟨?_, ?_, ?_⟩, ⟨?_, ?_, ?_⟩, ⟨?_, ?_, ?_⟩, ⟨?_, ?_, ?_⟩, ⟨?_, ?_, ?_⟩,
    ⟨?_, ?_, ?_⟩⟩ <;> omega

/-- The whole relaxation loop commutes with translation, for any two
sources whose occupancy queries agree up to the offset. -/
theorem propagate_shift (t : Vector3) (mesh mesh2 : VoxelMesh)
    (hocc : ∀ q, mesh2.isVoxelAt (t.add q) = mesh.isVoxelAt q) :
    ∀ (fuel : Nat) (actions : List (Vector3 × Nat)) (lighting : Lighting),
      propagate mesh2 fuel (shiftEntries t actions) (shiftEntries t lighting) =
        (shiftEntries t (propagate mesh fuel actions lighting).1,
          shiftEntries t (propagate mesh fuel actions lighting).2) := by
  intro fuel
  induction fuel with
  | zero => intro actions lighting; rfl
  | succ fuel ih =>
    intro actions lighting
    match actions with
    | [] => rfl
    | (pos, v) :: rest =>
      simp only [shiftEntries, List.map_cons, propagate]
      rw [show (List.map (fun e => (t.add e.1, e.2)) rest) = shiftEntries t rest from rfl]
      rw [show (List.map (fun e => (t.add e.1, e.2)) lighting : Lighting) =
        shiftEntries t lighting from rfl]
      rw [lightingGet_shift]
      cases hget : lightingGet lighting pos with
      | none => exact ih rest lighting
      | some cur =>
        rw [hocc pos]
        by_cases hcond : (decide (v > cur) && !mesh.isVoxelAt pos) = true
        · simp only [hcond, if_pos]
          have e1 : pushSuccessors (t.add pos) v ++ shiftEntries t rest =
              shiftEntries t (pushSuccessors pos v ++ rest) := by
            rw [pushSuccessors_shift]
            simp [shiftEntries, List.map_append]
          have e2 : lightingSet (shiftEntries t lighting) (t.add pos) v =
              shiftEntries t (lightingSet lighting pos v) :=
            lightingSet_shift t lighting pos v
          rw [e1, e2]
          exact ih _ _
        · simp only [hcond, if_neg]
          exact ih rest lighting

/-- Shifting both endpoints shifts the range pointwise. -/
theorem rangeInt_shift (c lo hi : Int) :
    rangeInt (c + lo) (c + hi) = (rangeInt lo hi).map (fun x => c + x) := by
  rw [rangeInt, rangeInt, List.map_map]
  have h : (c + hi + 1 - (c + lo)).toNat = (hi + 1 - lo).toNat := by omega
  rw [h]
  congr 1
  funext i
  simp only [Function.comp_apply]
  ring

/-- Initialization commutes with translating the bounds. -/
theorem initLighting_shift (t : Vector3) (b : Bounds) :
    initLighting ⟨t.add b.min, t.add b.max⟩ = shiftEntries t (initLighting b) := by
  have ex1 : (Vector3.add t b.min).x - 1 = t.x + (b.min.x - 1) := by
    simp only [Vector3.add]; ring
  have ex2 : (Vector3.add t b.max).x + 1 = t.x + (b.max.x + 1) := by
    simp only [Vector3.add]; ring
  have ey1 : (Vector3.add t b.min).y - 1 = t.y + (b.min.y - 1) := by
    simp only [Vector3.add]; ring
  have ey2 : (Vector3.add t b.max).y + 1 = t.y + (b.max.y + 1) := by
    simp only [Vector3.add]; ring
  have ez1 : (Vector3.add t b.min).z - 1 = t.z + (b.min.z - 1) := by
    simp only [Vector3.add]; ring
  have ez2 : (Vector3.add t b.max).z + 1 = t.z + (b.max.z + 1) := by
    simp only [Vector3.add]; ring
  show (rangeInt ((Vector3.add t b.min).x - 1) ((Vector3.add t b.max).x + 1)).flatMap
      (fun x => (rangeInt ((Vector3.add t b.min).y - 1) ((Vector3.add t b.max).y + 1)).flatMap
        (fun y => (rangeInt ((Vector3.add t b.min).z - 1) ((Vector3.add t b.max).z + 1)).map
          (fun z => ((⟨x, y, z⟩ : Vector3), 0)))) = _
  rw [ex1, ex2, ey1, ey2, ez1, ez2, rangeInt_shift, rangeInt_shift, rangeInt_shift]
  simp only [shiftEntries, initLighting, List.map_flatMap, List.flatMap_map, List.map_map]
  simp only [Function.comp_def, Vector3.add]

/-- Seeding commutes with translating the bounds. -/
theorem seedActions_shift (t : Vector3) (b : Bounds) :
    seedActions ⟨t.add b.min, t.add b.max⟩ = shiftEntries t (seedActions b) := by
  have ex1 : (Vector3.add t b.min).x - 1 = t.x + (b.min.x - 1) := by
    simp only [Vector3.add]; ring
  have ex2 : (Vector3.add t b.max).x + 1 = t.x + (b.max.x + 1) := by
    simp only [Vector3.add]; ring
  have ez1 : (Vector3.add t b.min).z - 1 = t.z + (b.min.z - 1) := by
    simp only [Vector3.add]; ring
  have ez2 : (Vector3.add t b.max).z + 1 = t.z + (b.max.z + 1) := by
    simp only [Vector3.add]; ring
  have ey : (Vector3.add t b.max).y + 1 = t.y + (b.max.y + 1) := by
    simp only [Vector3.add]; ring
  show (rangeInt ((Vector3.add t b.min).x - 1) ((Vector3.add t b.max).x + 1)).flatMap
      (fun x => (rangeInt ((Vector3.add t b.min).z - 1) ((Vector3.add t b.max).z + 1)).map
        (fun z => ((⟨x, (Vector3.add t b.max).y + 1, z⟩ : Vector3), 15))) = _
  rw [ex1, ex2, ez1, ez2]
  simp only [ey]
  rw [rangeInt_shift, rangeInt_shift]
  simp only [shiftEntries, seedActions, List.map_flatMap, List.flatMap_map, List.map_map]
  simp only [Function.comp_def, Vector3.add]

set_option maxRecDepth 40000 in
/-- The single-voxel run, evaluated to its fixed point: the worklist
empties within the fuel, every tracked cell converges to 15 except the
voxel itself (0, opaque) and the cell directly below it (14, shaded). -/
theorem sandMesh_lighting :
    calculateLighting sandMesh 1200 =
      ([
        ((⟨-1, -1, -1⟩ : Vector3), 15),
        ((⟨-1, -1, 0⟩ : Vector3), 15),
        ((⟨-1, -1, 1⟩ : Vector3), 15),
        ((⟨-1, 0, -1⟩ : Vector3), 15),
        ((⟨-1, 0, 0⟩ : Vector3), 15),
        ((⟨-1, 0, 1⟩ : Vector3), 15),
        ((⟨-1, 1, -1⟩ : Vector3), 15),
        ((⟨-1, 1, 0⟩ : Vector3), 15),
        ((⟨-1, 1, 1⟩ : Vector3), 15),
        ((⟨0, -1, -1⟩ : Vector3), 15),
        ((⟨0, -1, 0⟩ : Vector3), 14),
        ((⟨0, -1, 1⟩ : Vector3), 15),
        ((⟨0, 0, -1⟩ : Vector3), 15),
        ((⟨0, 0, 0⟩ : Vector3), 0),
        ((⟨0, 0, 1⟩ : Vector3), 15),
        ((⟨0, 1, -1⟩ : Vector3), 15),
        ((⟨0, 1, 0⟩ : Vector3), 15),
        ((⟨0, 1, 1⟩ : Vector3), 15),
        ((⟨1, -1, -1⟩ : Vector3), 15),
        ((⟨1, -1, 0⟩ : Vector3), 15),
        ((⟨1, -1, 1⟩ : Vector3), 15),
        ((⟨1, 0, -1⟩ : Vector3), 15),
        ((⟨1, 0, 0⟩ : Vector3), 15),
        ((⟨1, 0, 1⟩ : Vector3), 15),
        ((⟨1, 1, -1⟩ : Vector3), 15),
        ((⟨1, 1, 0⟩ : Vector3), 15),
        ((⟨1, 1, 1⟩ : Vector3), 15) ], []) := by
  decide

/-! ## Lemmas: the chunk cache -/

/-- Running any request sequence from an invariant-satisfying cache
returns the generator output for every request and preserves the
invariant. -/
theorem runChunkRequests_inv {Chunk : Type} (gen : Nat → Chunk) (rs : List Nat) :
    ∀ s : ChunkCache Chunk, CacheInv gen s →
      (runChunkRequests gen s rs).1 = rs.map gen ∧
        CacheInv gen (runChunkRequests gen s rs).2 := by
  induction rs with
  | nil => intro s hs; exact ⟨rfl, hs⟩
  | cons k ks ih =>
    intro s hs
    obtain ⟨hnd, hval, hlog⟩ := hs
    cases hbc : s.bufferChunks k with
    | none =>
      have hknot : k ∉ s.calls := fun hk => ((hlog k).mpr hk) hbc
      have hinv : CacheInv gen
          ⟨fun i => if i = k then some (gen k) else s.bufferChunks i, s.calls ++ [k]⟩ := by
        refine ⟨?_, ?_, ?_⟩
        · simp [List.nodup_append, hnd, hknot]
        · intro m
          by_cases h : m = k
          · simp [h]
          · simpa [h] using hval m
        · intro m
          by_cases h : m = k
          · simp [h]
          · simpa [h] using hlog m
      have hrun := ih _ hinv
      simp only [runChunkRequests, getChunkedBuffer, hbc]
      exact ⟨by simp [hrun.1], hrun.2⟩
    | some c =>
      have hc : c = gen k := by
        rcases hval k with h | h
        · rw [hbc] at h; cases h
        · rw [hbc] at h
          exact (Option.some.injEq _ _ ▸ h : _)
      have hrun := ih s ⟨hnd, hval, hlog⟩
      simp only [runChunkRequests, getChunkedBuffer, hbc]
      refine ⟨?_, hrun.2⟩
      simp [hrun.1, hc]

/-! ## The claims -/

/-- Claim C1: for every voxel source, after block assignment the blocks
list has exactly one Block per input voxel, in the same order:
`len(blocks) == len(voxels)` and for every index i, `blocks[i].voxel` is
the i-th voxel returned by the source. -/
theorem C1_one_block_per_voxel_in_order (ctx : AssignCtx) :
    (assignBlocks ctx).blocks.length = ctx.voxelMesh.voxels.length ∧
      ∀ i : Nat, ((assignBlocks ctx).blocks[i]?).map Block.voxel =
        ctx.voxelMesh.voxels[i]? := by
  constructor
  · rw [assignBlocks_blocks]
    simp
  · intro i
    rw [assignBlocks_blocks]
    simp [List.getElem?_map]
    cases ctx.voxelMesh.voxels[i]? <;> rfl

/-- Claim C2: a candidate block is replaced iff (mode is replace-fallable
and the candidate name is fallable) or (mode is replace-falling and the
candidate is fallable and unsupported below); on replacement the
assigner is re-invoked with the non-fallable collection and RGB colour
space regardless of the configured space; in particular a supported
fallable candidate is still replaced under replace-fallable. -/
theorem C2_replacement_condition (ctx : AssignCtx) (voxel : Voxel) :
    (shouldReplace ctx.fallable (ctx.isFallable voxel) (ctx.isSupported voxel) = true ↔
      ((ctx.fallable = FallableBehaviour.replaceFallable ∧ ctx.isFallable voxel = true) ∨
        (ctx.fallable = FallableBehaviour.replaceFalling ∧ ctx.isFallable voxel = true ∧
          ctx.isSupported voxel = false))) ∧
    ctx.isFallable voxel = ctx.fallableBlocks.contains (ctx.candidateBlock voxel).name ∧
    ctx.chooseBlock voxel =
      (if shouldReplace ctx.fallable (ctx.isFallable voxel) (ctx.isSupported voxel) then
        ctx.assigner ctx.atlasPalette voxel.colour voxel.position ctx.resolution
          ColourSpace.RGB (ctx.atlasPalette.createBlockCollection ctx.fallableBlocks)
      else ctx.candidateBlock voxel) ∧
    (ctx.fallable = FallableBehaviour.replaceFallable → ctx.isFallable voxel = true →
      shouldReplace ctx.fallable (ctx.isFallable voxel) (ctx.isSupported voxel) = true) := by
  refine ⟨?_, rfl, rfl, ?_⟩
  · cases hm : ctx.fallable <;> cases hf : ctx.isFallable voxel <;>
      cases hs : ctx.isSupported voxel <;> simp [shouldReplace]
  · intro h1 h2
    simp [shouldReplace, h1, h2]

/-- Claim C2 witness: the supported sand-candidate voxel under
replace-fallable mode is still replaced (Scenario C). -/
theorem C2_witness :
    supCtx.fallable = FallableBehaviour.replaceFallable ∧
      supCtx.isFallable oneSandVoxel = true ∧
      supCtx.isSupported oneSandVoxel = true ∧
      shouldReplace supCtx.fallable (supCtx.isFallable oneSandVoxel)
        (supCtx.isSupported oneSandVoxel) = true :=
  ⟨rfl, by decide, by decide,
    (C2_replacement_condition supCtx oneSandVoxel).2.2.2 rfl (by decide)⟩

/-- Claim C3: inside the relaxation loop, whenever a stored value is
updated to the candidate v, exactly six successor entries are pushed,
one per axis-aligned neighbor, with the five non-downward entries
carrying v − 1 and the downward entry carrying v when v = 15 and v − 1
otherwise. -/
theorem C3_successor_rule (mesh : VoxelMesh) (fuel : Nat) (pos : Vector3) (v : Nat)
    (rest : List (Vector3 × Nat)) (lighting : Lighting) (cur : Nat)
    (hget : lightingGet lighting pos = some cur) (hgt : v > cur)
    (hocc : mesh.isVoxelAt pos = false) :
    propagate mesh (fuel + 1) ((pos, v) :: rest) lighting =
      propagate mesh fuel (pushSuccessors pos v ++ rest) (lightingSet lighting pos v) ∧
    (pushSuccessors pos v).length = 6 ∧
    pushSuccessors pos v =
      [ ((⟨pos.x, pos.y - 1, pos.z⟩ : Vector3), if v = 15 then 15 else v - 1),
        ((⟨pos.x, pos.y, pos.z - 1⟩ : Vector3), v - 1),
        ((⟨pos.x - 1, pos.y, pos.z⟩ : Vector3), v - 1),
        ((⟨pos.x, pos.y, pos.z + 1⟩ : Vector3), v - 1),
        ((⟨pos.x + 1, pos.y, pos.z⟩ : Vector3), v - 1),
        ((⟨pos.x, pos.y + 1, pos.z⟩ : Vector3), v - 1) ] ∧
    ((pushSuccessors pos v).map Prod.fst).Nodup := by
  refine ⟨?_, rfl, ?_, ?_⟩
  · simp [propagate, hget, hgt, hocc]
  · simp only [pushSuccessors, Vector3.add, List.cons.injEq, Prod.mk.injEq,
      Vector3.mk.injEq, and_true]
    refine ⟨⟨?_, ?_⟩, ⟨?_, ?_⟩, ⟨?_, ?_⟩, ⟨?_, ?_⟩, ⟨?_, ?_⟩, ⟨?_, ?_⟩⟩ <;> omega
  · simp only [pushSuccessors, Vector3.add, List.map_cons, List.map_nil]
    simp [Vector3.mk.injEq]

/-- Claim C3 witness: the update rule applied to the seed above the
single voxel. -/
theorem C3_witness :
    lightingGet (initLighting sandMesh.getBounds) ⟨0, 1, 0⟩ = some 0 ∧
      15 > 0 ∧ sandMesh.isVoxelAt ⟨0, 1, 0⟩ = false ∧
      propagate sandMesh 1 [(⟨0, 1, 0⟩, 15)] (initLighting sandMesh.getBounds) =
        propagate sandMesh 0 (pushSuccessors ⟨0, 1, 0⟩ 15 ++ [])
          (lightingSet (initLighting sandMesh.getBounds) ⟨0, 1, 0⟩ 15) :=
  ⟨by decide, by decide, by decide,
    (C3_successor_rule sandMesh 0 ⟨0, 1, 0⟩ 15 [] (initLighting sandMesh.getBounds) 0
      (by decide) (by decide) (by decide)).1⟩

/-- Claim C4 counterexample: the seed layer does NOT lie one layer above
the expanded volume — the seed at the column above the single voxel sits
at y = max.y + 1, which is inside the expanded volume and is tracked by
the lighting field (initialized to 0). -/
theorem C4_counterexample :
    ((⟨0, 1, 0⟩ : Vector3), 15) ∈ seedActions sandMesh.getBounds ∧
      inExpandedBounds sandMesh.getBounds ⟨0, 1, 0⟩ = true ∧
      lightingGet (initLighting sandMesh.getBounds) ⟨0, 1, 0⟩ = some 0 := by
  refine ⟨by decide, by decide, by decide⟩

/-- Claim C4 (amended): lighting initialization seeds exactly one
worklist entry per (x, z) column of the expanded volume, with value 15,
at y = bounds.max.y + 1 — the TOP layer of the expanded (grown-by-1)
volume, one layer above the source bounds, inside the tracked volume. -/
theorem C4_seed_plane (b : Bounds) (hwf : b.min.y ≤ b.max.y) :
    seedActions b = (seedColumns b).map
      (fun xz => ((⟨xz.1, b.max.y + 1, xz.2⟩ : Vector3), 15)) ∧
    (seedColumns b).Nodup ∧
    (∀ x z : Int, (x, z) ∈ seedColumns b ↔
      (b.min.x - 1 ≤ x ∧ x ≤ b.max.x + 1 ∧ b.min.z - 1 ≤ z ∧ z ≤ b.max.z + 1)) ∧
    (∀ e ∈ seedActions b, e.2 = 15 ∧ e.1.y = b.max.y + 1 ∧
      inExpandedBounds b e.1 = true) := by
  refine ⟨seedActions_eq_map b, nodup_seedColumns b, mem_seedColumns b, ?_⟩
  intro e he
  rw [seedActions_eq_map b, List.mem_map] at he
  obtain ⟨⟨x, z⟩, hxz, rfl⟩ := he
  rw [mem_seedColumns] at hxz
  refine ⟨rfl, rfl, ?_⟩
  simp only [inExpandedBounds]
  simp only [Bool.and_eq_true, decide_eq_true_eq]
  omega

/-- Claim C4 witness: the amended seed-plane description holds of the
single-voxel bounds. -/
theorem C4_witness :
    sandMesh.getBounds.min.y ≤ sandMesh.getBounds.max.y ∧
      (seedColumns sandMesh.getBounds).Nodup :=
  ⟨by decide, (C4_seed_plane sandMesh.getBounds (by decide)).2.1⟩

/-- Claim C5 counterexample: for the single-voxel source, the open cell
one step to the side at the height directly above the voxel stores 15,
not at most 14 — that height is the seeded sun plane. -/
theorem C5_counterexample :
    (calculateLighting sandMesh 1200).2 = [] ∧
      lightingGet (calculateLighting sandMesh 1200).1 ⟨1, 1, 0⟩ = some 15 ∧
      ¬(∀ n : Nat, lightingGet (calculateLighting sandMesh 1200).1 ⟨1, 1, 0⟩ = some n →
        n ≤ 14) := by
  refine ⟨?_, ?_, ?_⟩
  · rw [sandMesh_lighting]
  · rw [sandMesh_lighting]
    decide
  · intro h
    have h15 := h 15 (by rw [sandMesh_lighting]; decide)
    omega

/-- Claim C5 (amended): for every source holding exactly one voxel (at
any position p, canonical occupancy, degenerate bounds), after the
propagation runs to its fixed point the open cell directly above the
voxel has light 15, the open cell one step to the side at the same
height ALSO has light 15 (that height is the seeded sun plane), and the
voxel cell itself stores 0. -/
theorem C5_column_light (mesh : VoxelMesh) (p : Vector3)
    (hocc : ∀ q : Vector3, mesh.isVoxelAt q = decide (q = p))
    (hb : mesh.getBounds = ⟨p, p⟩) :
    (calculateLighting mesh 1200).2 = [] ∧
      lightingGet (calculateLighting mesh 1200).1 (p.add ⟨0, 1, 0⟩) = some 15 ∧
      lightingGet (calculateLighting mesh 1200).1 (p.add ⟨1, 1, 0⟩) = some 15 ∧
      lightingGet (calculateLighting mesh 1200).1 p = some 0 := by
  have hzero : Vector3.add p ⟨0, 0, 0⟩ = p := by
    obtain ⟨a, b, c⟩ := p
    simp [Vector3.add]
  have hoccs : ∀ q : Vector3, mesh.isVoxelAt (p.add q) = sandMesh.isVoxelAt q := by
    intro q
    rw [hocc]
    have hiff : (p.add q = p) ↔ (q = (⟨0, 0, 0⟩ : Vector3)) := by
      constructor
      · intro h
        have h2 : p.add q = p.add ⟨0, 0, 0⟩ := by rw [hzero]; exact h
        exact (vadd_left_cancel p q ⟨0, 0, 0⟩).mp h2
      · intro h
        rw [h, hzero]
    simp [sandMesh, hiff]
  have hcalc : calculateLighting mesh 1200 =
      (shiftEntries p (calculateLighting sandMesh 1200).1,
        shiftEntries p (calculateLighting sandMesh 1200).2) := by
    rw [calculateLighting, hb]
    rw [show (⟨p, p⟩ : Bounds) =
      ⟨p.add sandMesh.getBounds.min, p.add sandMesh.getBounds.max⟩ from by
        rw [show sandMesh.getBounds.min = ⟨0, 0, 0⟩ from rfl,
          show sandMesh.getBounds.max = ⟨0, 0, 0⟩ from rfl, hzero]]
    rw [seedActions_shift, initLighting_shift]
    rw [shiftEntries, List.reverse_map]
    exact propagate_shift p sandMesh mesh hoccs 1200 _ _
  rw [hcalc]
  refine ⟨?_, ?_, ?_, ?_⟩
  · rw [sandMesh_lighting]
    rfl
  · rw [lightingGet_shift, sandMesh_lighting]
    decide
  · rw [lightingGet_shift, sandMesh_lighting]
    decide
  · have h3 := lightingGet_shift p (calculateLighting sandMesh 1200).1
      (⟨0, 0, 0⟩ : Vector3)
    rw [hzero] at h3
    rw [h3, sandMesh_lighting]
    decide

/-- Claim C5 witness: the amended statement at a single voxel away from
the origin. -/
theorem C5_witness :
    (calculateLighting farMesh 1200).2 = [] ∧
      lightingGet (calculateLighting farMesh 1200).1
        (Vector3.add ⟨5, -2, 3⟩ ⟨0, 1, 0⟩) = some 15 ∧
      lightingGet (calculateLighting farMesh 1200).1
        (Vector3.add ⟨5, -2, 3⟩ ⟨1, 1, 0⟩) = some 15 ∧
      lightingGet (calculateLighting farMesh 1200).1 ⟨5, -2, 3⟩ = some 0 :=
  C5_column_light farMesh ⟨5, -2, 3⟩ (fun _ => rfl) rfl

/-- Claim C6: under do-nothing mode no candidate is ever replaced, the
falling counter counts the fallable-and-unsupported voxels, and exactly
one warning citing that count is emitted iff the count is nonzero. -/
theorem C6_do_nothing (ctx : AssignCtx) (h : ctx.fallable = FallableBehaviour.doNothing) :
    (assignBlocks ctx).blocks =
      ctx.voxelMesh.voxels.map (fun v => ⟨v, ctx.candidateBlock v⟩) ∧
    (assignBlocks ctx).countFalling =
      ctx.voxelMesh.voxels.countP (fun v => ctx.isFallable v && !ctx.isSupported v) ∧
    (assignBlocks ctx).warnings =
      (if 0 < (assignBlocks ctx).countFalling then
        [fallingWarning (assignBlocks ctx).countFalling] else []) := by
  have hcb : ∀ v, ctx.chooseBlock v = ctx.candidateBlock v := by
    intro v
    simp [AssignCtx.chooseBlock, shouldReplace, h]
  refine ⟨?_, assignBlocks_countFalling ctx, ?_⟩
  · rw [assignBlocks_blocks]
    simp [hcb]
  · simp [assignBlocks, h]

/-- Claim C6 witness: one unsupported sand voxel under do-nothing keeps
the name sand, and exactly one warning citing a count of 1 is emitted
(Scenario B). -/
theorem C6_witness :
    (mkCtx FallableBehaviour.doNothing).fallable = FallableBehaviour.doNothing ∧
      (assignBlocks (mkCtx FallableBehaviour.doNothing)).blocks.map
        (fun b => b.blockInfo.name) = ["minecraft:sand"] ∧
      (assignBlocks (mkCtx FallableBehaviour.doNothing)).countFalling = 1 ∧
      (assignBlocks (mkCtx FallableBehaviour.doNothing)).warnings = [fallingWarning 1] := by
  refine ⟨rfl, by decide, by decide, ?_⟩
  have h := (C6_do_nothing (mkCtx FallableBehaviour.doNothing) rfl).2.2
  rw [h]
  decide

/-- Claim C7: after any number of loop iterations every stored lighting
value lies in [0, 15] and every occupied coordinate stores 0; moreover a
worklist entry at an occupied coordinate is dropped without generating
successor entries. -/
theorem C7_lighting_range (mesh : VoxelMesh) (fuel : Nat) :
    (∀ e ∈ (calculateLighting mesh fuel).1,
      (0 ≤ e.2 ∧ e.2 ≤ 15) ∧ (mesh.isVoxelAt e.1 = true → e.2 = 0)) ∧
    (∀ (pos : Vector3) (v : Nat) (rest : List (Vector3 × Nat)) (lighting : Lighting)
      (cur : Nat), lightingGet lighting pos = some cur → mesh.isVoxelAt pos = true →
      propagate mesh (fuel + 1) ((pos, v) :: rest) lighting =
        propagate mesh fuel rest lighting) := by
  constructor
  · intro e he
    have h := propagate_invariant mesh fuel (seedActions mesh.getBounds).reverse
      (initLighting mesh.getBounds)
      (fun e2 he2 => by
        have h0 := mem_initLighting_val mesh.getBounds e2 he2
        rw [h0]
        exact ⟨by omega, fun _ => rfl⟩)
      (fun a ha => by rw [mem_seedActions_val mesh.getBounds a ha])
      e he
    exact ⟨⟨Nat.zero_le _, h.1⟩, h.2⟩
  · intro pos v rest lighting cur hget hvox
    simp [propagate, hget, hvox]

/-- Claim C7 witness: the invariant at the occupied origin cell of the
single-voxel run, and the occupied-drop rule at that cell. -/
theorem C7_witness :
    (((0 : Nat) ≤ (0 : Nat) ∧ (0 : Nat) ≤ 15) ∧
      (sandMesh.isVoxelAt ⟨0, 0, 0⟩ = true → (0 : Nat) = 0)) ∧
      propagate sandMesh 51 [(⟨0, 0, 0⟩, 9)] (initLighting sandMesh.getBounds) =
        propagate sandMesh 50 [] (initLighting sandMesh.getBounds) :=
  ⟨(C7_lighting_range sandMesh 50).1 ((⟨0, 0, 0⟩ : Vector3), 0) (by decide),
    (C7_lighting_range sandMesh 50).2 ⟨0, 0, 0⟩ 9 [] (initLighting sandMesh.getBounds) 0
      (by decide) (by decide)⟩

/-- Claim C8: the used-block-name list contains each assigned block name
exactly once (no duplicates), ordered by first occurrence during the
in-order pass: it equals the first-occurrence deduplication of the
assigned-name sequence. -/
theorem C8_used_names (ctx : AssignCtx) :
    (assignBlocks ctx).blocksUsed.Nodup ∧
    (∀ n, n ∈ (assignBlocks ctx).blocksUsed ↔
      n ∈ (assignBlocks ctx).blocks.map (fun b => b.blockInfo.name)) ∧
    (assignBlocks ctx).blocksUsed =
      firstOccur ((assignBlocks ctx).blocks.map (fun b => b.blockInfo.name)) := by
  refine ⟨?_, ?_, assignBlocks_blocksUsed ctx⟩
  · rw [assignBlocks_blocksUsed]
    exact nodup_firstOccur _
  · intro n
    rw [assignBlocks_blocksUsed]
    exact mem_firstOccur _ _

/-- Claim C9: over any request sequence on one aggregate, every call
with index k returns the generator value for k (so equal indices get
value-equal results), and the generation collaborator is invoked at most
once per index. -/
theorem C9_chunk_cache (Chunk : Type) (gen : Nat → Chunk) (rs : List Nat) :
    (runChunkRequests gen (ChunkCache.empty Chunk) rs).1 = rs.map gen ∧
      (runChunkRequests gen (ChunkCache.empty Chunk) rs).2.calls.Nodup ∧
      ∀ k, (runChunkRequests gen (ChunkCache.empty Chunk) rs).2.calls.count k ≤ 1 := by
  have hinv : CacheInv gen (ChunkCache.empty Chunk) := by
    refine ⟨List.nodup_nil, fun k => Or.inl rfl, fun k => ?_⟩
    simp [ChunkCache.empty]
  have h := runChunkRequests_inv gen rs (ChunkCache.empty Chunk) hinv
  exact ⟨h.1, h.2.1, fun k => List.nodup_iff_count_le_one.mp h.2.1 k⟩

/-- Claim C10: assuming the assigner returns a member of the collection
it is handed (for the two collections used in the pass), under
replace-fallable mode no block of the resulting mesh has a fallable
name. -/
theorem C10_replace_fallable_excludes (ctx : AssignCtx)
    (_hall : ∀ (col : Colour) (pos : Vector3) (res : Nat) (cs : ColourSpace),
      ctx.assigner ctx.atlasPalette col pos res cs ctx.allBlockCollection ∈
        ctx.allBlockCollection.blocks)
    (hnf : ∀ (col : Colour) (pos : Vector3) (res : Nat) (cs : ColourSpace),
      ctx.assigner ctx.atlasPalette col pos res cs ctx.nonFallableBlockCollection ∈
        ctx.nonFallableBlockCollection.blocks)
    (hmode : ctx.fallable = FallableBehaviour.replaceFallable) :
    ∀ b ∈ (assignBlocks ctx).blocks, b.blockInfo.name ∉ ctx.fallableBlocks := by
  intro b hb
  rw [assignBlocks_blocks] at hb
  obtain ⟨v, hv, rfl⟩ := List.mem_map.mp hb
  by_cases hf : ctx.isFallable v = true
  · have hrep : ctx.chooseBlock v = ctx.replacedBlock v := by
      simp [AssignCtx.chooseBlock, shouldReplace, hmode, hf]
    have hmem : ctx.replacedBlock v ∈ ctx.nonFallableBlockCollection.blocks :=
      hnf v.colour v.position ctx.resolution ColourSpace.RGB
    rw [AssignCtx.nonFallableBlockCollection, AtlasPalette.createBlockCollection] at hmem
    have h2 := (List.mem_filter.mp hmem).2
    simp only [hrep]
    simpa using h2
  · have hrep : ctx.chooseBlock v = ctx.candidateBlock v := by
      simp [AssignCtx.chooseBlock, shouldReplace, hf]
    simp only [hrep]
    intro hmem
    exact hf (by simp [AssignCtx.isFallable, List.elem_iff]; exact hmem)

/-- Claim C10 witness: the sand candidate is replaced by stone, which is
not fallable. -/
theorem C10_witness :
    (assignBlocks (mkCtx FallableBehaviour.replaceFallable)).blocks =
      [⟨oneSandVoxel, stoneInfo⟩] ∧
      (⟨oneSandVoxel, stoneInfo⟩ : Block).blockInfo.name ∉
        (mkCtx FallableBehaviour.replaceFallable).fallableBlocks :=
  ⟨by decide,
    C10_replace_fallable_excludes (mkCtx FallableBehaviour.replaceFallable)
      (fun _ _ _ _ =>
        show sandInfo ∈ (mkCtx FallableBehaviour.replaceFallable).allBlockCollection.blocks by
          decide)
      (fun _ _ _ _ =>
        show stoneInfo ∈
            (mkCtx FallableBehaviour.replaceFallable).nonFallableBlockCollection.blocks by
          decide)
      rfl _ (by decide)⟩

end ObjToSchematic
